import Mathlib

/-!
Shallow embedding of the Shiki JavaScript regex engine scanner
(`packages/engine-javascript/src/index.ts`).

The scanner delegates actual regex matching to compiled matchers (JavaScript
`RegExp` objects produced by an injectable `regexConstructor` or taken from an
injectable cache).  We therefore model a compiled matcher as an abstract
`exec` behaviour: a function from the subject string and the `lastIndex`
cursor (which the scanner assigns before every `exec` call) to either a thrown
error, no match, or a match record (`RegExpExecArray` with `d`-flag `indices`).

`findNextMatchSync` is embedded twice, from the same source text:
* `scanLoopP` / `findNextMatchSync` — the result alone;
* `scanLoopSt` / `findNextMatchSyncSt` — additionally threading each slot's
  mutable `lastIndex` field explicitly and recording every `exec` invocation
  (slot index) in a log, reflecting that `regexp.lastIndex = ...` writes to
  the shared compiled `RegExp` object and that JavaScript `exec` on a global
  regex updates `lastIndex` (end of match on success, `0` on failure).
-/

set_option maxHeartbeats 1000000

instance {ε α : Type} [DecidableEq ε] [DecidableEq α] : DecidableEq (Except ε α) := fun x y =>
  match x, y with
  | .ok a, .ok b =>
    if h : a = b then isTrue (by rw [h]) else isFalse (by intro hc; cases hc; exact h rfl)
  | .error a, .error b =>
    if h : a = b then isTrue (by rw [h]) else isFalse (by intro hc; cases hc; exact h rfl)
  | .ok _, .error _ => isFalse (by intro hc; cases hc)
  | .error _, .ok _ => isFalse (by intro hc; cases hc)

namespace Shiki

/-- Source constant `const MAX = 4294967295` — sentinel for capture groups that did not
participate in the match. -/
def MAX : Nat := 4294967295

/-- One reported capture span `{start, length, end}` (`end_` stands for the
source's `end` field, a reserved word in Lean). -/
structure CaptureSpan where
  start : Nat
  length : Nat
  end_ : Nat
deriving DecidableEq

/-- A JavaScript `RegExpExecArray` restricted to what the scanner reads:
`match.index` and the `d`-flag `match.indices` (per capture group, either
`undefined` or a `[start, end]` pair). -/
structure ExecArray where
  index : Nat
  indices : List (Option (Nat × Nat))
deriving DecidableEq

/-- End offset of the full match (group 0), used by the JavaScript engine to
update `lastIndex` after a successful global `exec`. -/
def ExecArray.fullEnd (m : ExecArray) : Nat :=
  match m.indices with
  | some (_, b) :: _ => b
  | _ => m.index

/-- A JavaScript error value (compilation errors stored in the cache, and
errors thrown by `exec` at scan time). -/
structure JSError where
  msg : String
deriving DecidableEq

/-- A compiled matcher (JavaScript `RegExp`): its behaviour is a function of
the subject string and the `lastIndex` the caller assigned before `exec`. -/
structure JSRegExp where
  exec : String → Nat → Except JSError (Option ExecArray)

/-- The engine's string wrapper: `createString(s)` returns `{ content: s }`. -/
structure RegexEngineString where
  content : String
deriving DecidableEq

/-- The first argument of `findNextMatchSync`: `string | RegexEngineString`. -/
inductive StrArg where
  | raw (s : String)
  | wrapped (w : RegexEngineString)

/-- Resolution `typeof string === 'string' ? string : string.content`. -/
def resolveStr : StrArg → String
  | .raw s => s
  | .wrapped w => w.content

/-- The value returned from a successful scan: pattern index plus the
translated capture spans. -/
structure MatchResult where
  index : Nat
  captureIndices : List CaptureSpan
deriving DecidableEq

/-- The nested `toResult` helper: translates a `RegExpExecArray` into a
`MatchResult`, adding the anchor-simulation `offset` to the start and end of
every participating group and using the `MAX` sentinel for groups that did
not participate. -/
def toResult (index : Nat) (m : ExecArray) (offset : Nat) : MatchResult :=
  { index := index
    captureIndices := m.indices.map fun indice =>
      match indice with
      | none => { end_ := MAX, start := MAX, length := 0 }
      | some indice =>
        { start := indice.1 + offset
          length := indice.2 - indice.1
          end_ := indice.2 + offset } }

/-- Outcome of the `try` block body for one non-null slot: the two `exec`
attempts (direct, then the anchor-simulation retry on the sliced string).
Records the thrown error or match, the anchor `offset`, the final value of
the shared regexp's `lastIndex` field, and how many `exec` calls were made. -/
inductive TryOutcome where
  | threw (e : JSError) (finalLastIndex : Nat) (execs : Nat)
  | noMatch (finalLastIndex : Nat) (execs : Nat)
  | matched (m : ExecArray) (offset : Nat) (finalLastIndex : Nat) (execs : Nat)
deriving DecidableEq

/-- Body of the per-pattern `try` block:
`regexp.lastIndex = startPosition; match = regexp.exec(str)`; if that fails
and the pattern is anchor-flagged, `regexp.lastIndex = 0;
match = regexp.exec(str.slice(startPosition))` with `offset = startPosition`.
JavaScript updates a global regex's `lastIndex` to the match end on success
and to `0` on failure; a throw leaves the last assigned value in place. -/
def tryPattern (r : JSRegExp) (anchor : Bool) (str : String) (startPosition : Nat) : TryOutcome :=
  match r.exec str startPosition with
  | .error e => .threw e startPosition 1
  | .ok (some m) => .matched m 0 m.fullEnd 1
  | .ok none =>
    if anchor then
      match r.exec (str.drop startPosition) 0 with
      | .error e => .threw e 0 2
      | .ok (some m) => .matched m startPosition m.fullEnd 2
      | .ok none => .noMatch 0 2
    else
      .noMatch 0 1

/-- The post-loop selection over the `pending` list:
`minIndex = Math.min(...pending.map(m => m[1].index))`, then the first pending
entry whose raw `match.index` equals `minIndex` is converted with `toResult`.
Note the comparison uses the raw `match.index`, not `match.index + offset`. -/
def selectPending (pending : List (Nat × ExecArray × Nat)) : Option MatchResult :=
  match pending with
  | [] => none
  | q :: qs =>
    let minIndex := (qs.map fun p => p.2.1.index).foldl min q.2.1.index
    match (q :: qs).find? fun p => p.2.1.index == minIndex with
    | some p => some (toResult p.1 p.2.1 p.2.2)
    | none => none

/-- The main scan loop of `findNextMatchSync`, result only.  `slots` pairs
each `this.regexps[i]` with `this.contiguousAnchorSimulation[i]`; `i` is the
current pattern index and `pending` the accumulated pending candidates. -/
def scanLoopP (forgiving : Bool) (str : String) (startPosition : Nat) :
    List (Option JSRegExp × Bool) → Nat → List (Nat × ExecArray × Nat) →
    Except JSError (Option MatchResult)
  | [], _, pending => .ok (selectPending pending)
  | (slot, anchor) :: rest, i, pending =>
    match slot with
    | none => scanLoopP forgiving str startPosition rest (i + 1) pending
    | some r =>
      match tryPattern r anchor str startPosition with
      | .threw e _ _ =>
        if forgiving then scanLoopP forgiving str startPosition rest (i + 1) pending
        else .error e
      | .noMatch _ _ => scanLoopP forgiving str startPosition rest (i + 1) pending
      | .matched m offset _ _ =>
        if m.index = startPosition then .ok (some (toResult i m offset))
        else scanLoopP forgiving str startPosition rest (i + 1) (pending ++ [(i, m, offset)])

/-- A constructed scanner: the pattern list, the forgiving flag, the resolved
matcher slots (`null` = permanently disabled pattern) and the parallel
contiguous-anchor flags. -/
structure JavaScriptScanner where
  patterns : List String
  forgiving : Bool
  regexps : List (Option JSRegExp)
  contiguousAnchorSimulation : List Bool

/-- Method `findNextMatchSync(string, startPosition)` — result only. -/
def findNextMatchSync (sc : JavaScriptScanner) (string : StrArg) (startPosition : Nat) :
    Except JSError (Option MatchResult) :=
  scanLoopP sc.forgiving (resolveStr string) startPosition
    (sc.regexps.zip sc.contiguousAnchorSimulation) 0 []

/-- The same scan loop with each slot's mutable `lastIndex` threaded
explicitly (third component of each slot triple) and a log of `exec`
invocations by slot index.  Returns the result, the final `lastIndex` of each
slot, and the log.  On a thrown (unforgiven) error the call does not return
normally, so only the error is produced. -/
def scanLoopSt (forgiving : Bool) (str : String) (startPosition : Nat) :
    List ((Option JSRegExp × Bool) × Nat) → Nat → List (Nat × ExecArray × Nat) → List Nat →
    Except JSError (Option MatchResult × List Nat × List Nat)
  | [], _, pending, log => .ok (selectPending pending, [], log)
  | ((slot, anchor), li0) :: rest, i, pending, log =>
    match slot with
    | none =>
      match scanLoopSt forgiving str startPosition rest (i + 1) pending log with
      | .ok (res, lis, lg) => .ok (res, li0 :: lis, lg)
      | .error e => .error e
    | some r =>
      match tryPattern r anchor str startPosition with
      | .threw e li n =>
        if forgiving then
          match scanLoopSt forgiving str startPosition rest (i + 1) pending
              (log ++ List.replicate n i) with
          | .ok (res, lis, lg) => .ok (res, li :: lis, lg)
          | .error e' => .error e'
        else .error e
      | .noMatch li n =>
        match scanLoopSt forgiving str startPosition rest (i + 1) pending
            (log ++ List.replicate n i) with
        | .ok (res, lis, lg) => .ok (res, li :: lis, lg)
        | .error e => .error e
      | .matched m offset li n =>
        if m.index = startPosition then
          .ok (some (toResult i m offset), li :: rest.map (fun t => t.2),
            log ++ List.replicate n i)
        else
          match scanLoopSt forgiving str startPosition rest (i + 1)
              (pending ++ [(i, m, offset)]) (log ++ List.replicate n i) with
          | .ok (res, lis, lg) => .ok (res, li :: lis, lg)
          | .error e => .error e

/-- Method `findNextMatchSync` with the shared matchers' `lastIndex` fields made
explicit: `lastIndexes` gives each slot's `lastIndex` value before the call;
the output includes each slot's `lastIndex` after the call and the exec log. -/
def findNextMatchSyncSt (sc : JavaScriptScanner) (string : StrArg) (startPosition : Nat)
    (lastIndexes : List Nat) : Except JSError (Option MatchResult × List Nat × List Nat) :=
  scanLoopSt sc.forgiving (resolveStr string) startPosition
    ((sc.regexps.zip sc.contiguousAnchorSimulation).zip lastIndexes) 0 [] []

/-! ### Pattern compilation and the shared cache -/

/-- A cache slot: `RegExp | Error` (the "store compiled-or-error in the same
map" idiom). -/
inductive CacheEntry where
  | regex (r : JSRegExp)
  | error (e : JSError)

/-- The shared pattern cache, `Map<string, RegExp | Error>`. -/
abbrev Cache := List (String × CacheEntry)

/-- Lookup `cache.get(p)` (first binding wins, as in a JavaScript `Map`). -/
def mapGet (c : Cache) (k : String) : Option CacheEntry :=
  match c with
  | [] => none
  | (k', v) :: rest => if k' = k then some v else mapGet rest k

/-- Update `cache.set(p, v)`: replace the binding if the key is present, else append. -/
def mapSet (c : Cache) (k : String) (v : CacheEntry) : Cache :=
  match c with
  | [] => [(k, v)]
  | (k', v') :: rest => if k' = k then (k', v) :: rest else (k', v') :: mapSet rest k v

/-- JavaScript `String.prototype.startsWith`, stated on the character lists so that it
evaluates by computation. -/
def jsStartsWith (s pre : String) : Bool := pre.toList.isPrefixOf s.toList

/-- The anchor idiom test `p.startsWith('(^|\\G)') || p.startsWith('(\\G|^)')`. -/
def contiguousAnchorFlag (p : String) : Bool :=
  jsStartsWith p "(^|\\G)" || jsStartsWith p "(\\G|^)"

/-- Resolving one pattern in the constructor's `patterns.map` callback:
cache hit with a `RegExp` reuses it; cache hit with an `Error` yields `null`
if forgiving, else throws the recorded error; cache miss invokes the
`regexConstructor`, stores the result (or the error) in the cache, and
applies the same forgiving policy.  The `Bool` records whether the
constructor was invoked (for the compile log). -/
def compileOne (forgiving : Bool) (rc : String → Except JSError JSRegExp)
    (cache : Cache) (p : String) : Except JSError (Option JSRegExp) × Cache × Bool :=
  match mapGet cache p with
  | some (.regex r) => (.ok (some r), cache, false)
  | some (.error e) => (if forgiving then .ok none else .error e, cache, false)
  | none =>
    match rc p with
    | .ok regex => (.ok (some regex), mapSet cache p (.regex regex), true)
    | .error e => (if forgiving then .ok none else .error e, mapSet cache p (.error e), true)

/-- The constructor's `this.regexps = patterns.map(...)` fold, threading the
shared cache and collecting the list of pattern strings actually handed to
the `regexConstructor` (the compile log).  A thrown error aborts construction
but the cache writes made so far persist. -/
def buildRegexps (forgiving : Bool) (rc : String → Except JSError JSRegExp) :
    List String → Cache → Except JSError (List (Option JSRegExp)) × Cache × List String
  | [], cache => (.ok [], cache, [])
  | p :: ps, cache =>
    match compileOne forgiving rc cache p with
    | (.error e, c', compiled) => (.error e, c', if compiled then [p] else [])
    | (.ok slot, c', compiled) =>
      match buildRegexps forgiving rc ps c' with
      | (res, c'', log) =>
        (res.map fun slots => slot :: slots, c'', (if compiled then [p] else []) ++ log)

/-- Constructor `new JavaScriptScanner(patterns, cache, forgiving, regexConstructor)`:
computes the anchor flags and resolves every matcher slot; fails (non-
forgiving) if any pattern fails to compile.  Also returns the updated cache
and the compile log. -/
def mkJavaScriptScanner (patterns : List String) (cache : Cache) (forgiving : Bool)
    (rc : String → Except JSError JSRegExp) :
    Except JSError JavaScriptScanner × Cache × List String :=
  match buildRegexps forgiving rc patterns cache with
  | (res, c', log) =>
    (res.map fun slots =>
      { patterns := patterns
        forgiving := forgiving
        regexps := slots
        contiguousAnchorSimulation := patterns.map contiguousAnchorFlag }, c', log)

/-- The engine object returned by `createJavaScriptRegexEngine`:
`createScanner` builds a `JavaScriptScanner` over the engine's cache and
forgiving flag; `createString(s)` returns `{ content: s }`. -/
structure RegexEngine where
  createScanner : List String → Cache → Except JSError JavaScriptScanner × Cache × List String
  createString : String → RegexEngineString

/-- Factory `createJavaScriptRegexEngine(options)` with the pattern compiler supplied
as `rc` (the default constructor delegates to the external `oniguruma-to-js`
converter, a black box to this core). -/
def createJavaScriptRegexEngine (forgiving : Bool)
    (rc : String → Except JSError JSRegExp) : RegexEngine :=
  { createScanner := fun patterns cache => mkJavaScriptScanner patterns cache forgiving rc
    createString := fun s => { content := s } }

/-! ### Specification-side helper definitions (used only in theorem
statements, never inside the embedded operations) -/

/-- A scanner assembled from a list of (matcher slot, anchor flag) pairs, the
shape in which the scan loop consumes the constructor's two parallel lists. -/
def scannerOfSlots (patterns : List String) (forgiving : Bool)
    (slots : List (Option JSRegExp × Bool)) : JavaScriptScanner :=
  { patterns := patterns
    forgiving := forgiving
    regexps := slots.map fun x => x.1
    contiguousAnchorSimulation := slots.map fun x => x.2 }

/-- The exec array a direct (non-simulated) match at absolute position would
carry: every reported offset shifted right by `offset`. -/
def shiftExec (m : ExecArray) (offset : Nat) : ExecArray :=
  { index := m.index + offset
    indices := m.indices.map (Option.map fun p => (p.1 + offset, p.2 + offset)) }

/-- A slot passes quietly when trying it neither returns immediately (no match
with raw index exactly `startPosition`) nor aborts the scan (a throw is
tolerated only when `forgiving`). -/
def noImmediateHit (forgiving : Bool) (str : String) (startPosition : Nat)
    (x : Option JSRegExp × Bool) : Bool :=
  match x.1 with
  | none => true
  | some r =>
    match tryPattern r x.2 str startPosition with
    | .threw _ _ _ => forgiving
    | .noMatch _ _ => true
    | .matched m _ _ _ => m.index != startPosition

/-- The pending candidates the loop accumulates over a slot list (pattern
index, raw exec array, anchor offset), starting the index count at `i`. -/
def collectCandidates (str : String) (startPosition : Nat) :
    List (Option JSRegExp × Bool) → Nat → List (Nat × ExecArray × Nat)
  | [], _ => []
  | (slot, anchor) :: rest, i =>
    match slot with
    | none => collectCandidates str startPosition rest (i + 1)
    | some r =>
      match tryPattern r anchor str startPosition with
      | .threw _ _ _ => collectCandidates str startPosition rest (i + 1)
      | .noMatch _ _ => collectCandidates str startPosition rest (i + 1)
      | .matched m offset _ _ => (i, m, offset) :: collectCandidates str startPosition rest (i + 1)

/-- Pattern `p` fails to compile against `cache`: either the cache records a
failure for `p`, or `p` is absent and the pattern compiler rejects it. -/
def patternFailsWith (rc : String → Except JSError JSRegExp) (cache : Cache)
    (p : String) (e : JSError) : Prop :=
  mapGet cache p = some (.error e) ∨ (mapGet cache p = none ∧ rc p = .error e)

/-- Pattern `p` fails to compile against `cache` (with some error). -/
def patternFails (rc : String → Except JSError JSRegExp) (cache : Cache) (p : String) : Prop :=
  ∃ e, patternFailsWith rc cache p e

/-! ### Concrete matcher behaviours and scanners for witnesses and
counterexamples.  Matchers are injected black boxes at this interface (via
`regexConstructor` or a pre-populated cache); each behaviour below is the
behaviour of an ordinary JavaScript regex, noted alongside. -/

/-- Behaviour of `/c/dg` for a single character `c`: first occurrence at or
after `lastIndex`. -/
def literalRx (c : Char) : JSRegExp :=
  ⟨fun s li => .ok (match (s.toList.drop li).findIdx? (· == c) with
    | some j => some ⟨li + j, [some (li + j, li + j + 1)]⟩
    | none => none)⟩

/-- Behaviour of `/^b/dg` (no multiline flag): matches only at offset `0`. -/
def caretB : JSRegExp :=
  ⟨fun s li => .ok (if li = 0 ∧ jsStartsWith s "b" then some ⟨0, [some (0, 1)]⟩ else none)⟩

/-- Behaviour of `/(?<=^abc)d/dg`: matches `d` at offset `3` when the string
begins with `"abcd"` — slicing the subject changes where `^` can hold, so the
substring retry can succeed at a positive offset although the direct search
fails. -/
def lookbehindABCD : JSRegExp :=
  ⟨fun s li => .ok (if li ≤ 3 ∧ s.take 4 = "abcd" then some ⟨3, [some (3, 4)]⟩ else none)⟩

/-- A matcher whose `exec` always throws (a dialect-conversion edge case). -/
def throwingRx : JSRegExp := ⟨fun _ _ => .error ⟨"bad"⟩⟩

/-- A matcher that matches at a fixed offset `k` (span of length one) when
searched from any `lastIndex ≤ k`. -/
def fixedAt (k : Nat) : JSRegExp :=
  ⟨fun _ li => .ok (if li ≤ k then some ⟨k, [some (k, k + 1)]⟩ else none)⟩

/-- A matcher with three capture groups of which the middle one does not
participate, matching at offset `2` (e.g. `/(?:x)((a)|(b))../` shapes). -/
def multiGroupRx : JSRegExp :=
  ⟨fun _ li => .ok (if li ≤ 2 then some ⟨2, [some (2, 5), none, some (3, 4)]⟩ else none)⟩

/-- Scanner for the C1 counterexample: `/c/` and an anchor-flagged pattern
behaving like `/(?<=^abc)d/`. -/
def scannerC1 : JavaScriptScanner :=
  { patterns := ["c", "(^|\\G)d"], forgiving := false
    regexps := [some (literalRx 'c'), some lookbehindABCD]
    contiguousAnchorSimulation := [false, true] }

/-- Scanner for the C2 counterexample: an anchor-flagged pattern behaving
like `/^b/` followed by `/b/`. -/
def scannerC2 : JavaScriptScanner :=
  { patterns := ["(^|\\G)b", "b"], forgiving := false
    regexps := [some caretB, some (literalRx 'b')]
    contiguousAnchorSimulation := [true, false] }

/-- One-pattern scanner whose matcher finds nothing (for the C4
counterexample: the call still rewrites the shared `lastIndex`). -/
def scannerC4 : JavaScriptScanner :=
  { patterns := ["q"], forgiving := false
    regexps := [some (literalRx 'q')]
    contiguousAnchorSimulation := [false] }

/-- Forgiving one-pattern scanner whose matcher always throws at scan time
(for the C8 counterexample). -/
def scannerC8 : JavaScriptScanner :=
  { patterns := ["x"], forgiving := true
    regexps := [some throwingRx]
    contiguousAnchorSimulation := [false] }

/-- A pattern compiler that rejects every pattern. -/
def rcReject : String → Except JSError JSRegExp := fun _ => .error ⟨"unsupported"⟩

/-- A pattern compiler that accepts every pattern with a fixed matcher. -/
def rcAccept : String → Except JSError JSRegExp := fun _ => .ok (fixedAt 1)

/-- A pattern compiler that accepts `"b"` (as `/b/`) and rejects every other
pattern — for exercising a scanner that mixes failed and compiled patterns. -/
def rcMixed : String → Except JSError JSRegExp :=
  fun p => if p = "b" then .ok (literalRx 'b') else .error ⟨"unsupported"⟩

/-! ## Helper lemmas -/

theorem foldl_min_le_init (l : List Nat) : ∀ a : Nat, l.foldl min a ≤ a := by
  induction l with
  | nil => intro a; exact Nat.le_refl a
  | cons b t ih =>
    intro a
    exact Nat.le_trans (ih (min a b)) (Nat.min_le_left a b)

theorem foldl_min_le_mem (l : List Nat) : ∀ a b : Nat, b ∈ l → l.foldl min a ≤ b := by
  induction l with
  | nil => intro a b hb; cases hb
  | cons c t ih =>
    intro a b hb
    rcases List.mem_cons.mp hb with h | h
    · subst h
      exact Nat.le_trans (foldl_min_le_init t (min a b)) (Nat.min_le_right a b)
    · exact ih (min a c) b h

theorem foldl_min_attained (l : List Nat) : ∀ a : Nat, l.foldl min a = a ∨ l.foldl min a ∈ l := by
  induction l with
  | nil => intro a; exact Or.inl rfl
  | cons b t ih =>
    intro a
    rcases ih (min a b) with h | h
    · rcases Nat.le_total a b with hab | hba
      · left; rw [List.foldl_cons, h]; exact Nat.min_eq_left hab
      · right; rw [List.foldl_cons, h, Nat.min_eq_right hba]; exact List.mem_cons_self b t
    · right; exact List.mem_cons_of_mem b h

theorem find?_split {α : Type} (p : α → Bool) :
    ∀ (l : List α) (a : α), l.find? p = some a →
      p a = true ∧ ∃ l₁ l₂, l = l₁ ++ a :: l₂ ∧ ∀ x ∈ l₁, p x = false := by
  intro l
  induction l with
  | nil => intro a h; cases h
  | cons b t ih =>
    intro a h
    by_cases hb : p b = true
    · rw [List.find?_cons_of_pos _ hb] at h
      cases h
      exact ⟨hb, [], t, rfl, by intro x hx; cases hx⟩
    · rw [List.find?_cons_of_neg _ hb] at h
      have hb' : p b = false := by
        cases hpb : p b
        · rfl
        · exact absurd hpb hb
      obtain ⟨hpa, l₁, l₂, heq, hall⟩ := ih a h
      refine ⟨hpa, b :: l₁, l₂, by rw [heq]; rfl, ?_⟩
      intro x hx
      rcases List.mem_cons.mp hx with hx | hx
      · subst hx; exact hb'
      · exact hall x hx

theorem selectPending_some {pending : List (Nat × ExecArray × Nat)} {res : MatchResult}
    (h : selectPending pending = some res) :
    ∃ q ∈ pending, res = toResult q.1 q.2.1 q.2.2 := by
  match pending, h with
  | q :: qs, h =>
    unfold selectPending at h
    simp only [] at h
    cases hf : (q :: qs).find? fun p =>
        p.2.1.index == (qs.map fun p => p.2.1.index).foldl min q.2.1.index with
    | none => rw [hf] at h; cases h
    | some p =>
      rw [hf] at h
      cases h
      exact ⟨p, List.mem_of_find?_eq_some hf, rfl⟩

theorem selectPending_spec (C : List (Nat × ExecArray × Nat)) (hne : C ≠ [])
    (hsorted : C.Pairwise fun a b => a.1 < b.1) :
    ∃ q ∈ C, selectPending C = some (toResult q.1 q.2.1 q.2.2) ∧
      (∀ p ∈ C, q.2.1.index ≤ p.2.1.index) ∧
      (∀ p ∈ C, p.2.1.index = q.2.1.index → q.1 ≤ p.1) := by
  match C, hne with
  | c :: qs, _ =>
    have hmin_le : ∀ p ∈ c :: qs,
        (qs.map fun p => p.2.1.index).foldl min c.2.1.index ≤ p.2.1.index := by
      intro p hp
      rcases List.mem_cons.mp hp with hp | hp
      · subst hp; exact foldl_min_le_init _ _
      · exact foldl_min_le_mem _ _ _ (List.mem_map_of_mem _ hp)
    have hmin_mem : ∃ p ∈ c :: qs,
        p.2.1.index = (qs.map fun p => p.2.1.index).foldl min c.2.1.index := by
      rcases foldl_min_attained (qs.map fun p => p.2.1.index) c.2.1.index with h | h
      · exact ⟨c, List.mem_cons_self c qs, h.symm⟩
      · obtain ⟨p, hp, hpv⟩ := List.mem_map.mp h
        exact ⟨p, List.mem_cons_of_mem c hp, hpv⟩
    obtain ⟨p₀, hp₀, hp₀v⟩ := hmin_mem
    have hfind : ∃ q, (c :: qs).find? (fun p =>
        p.2.1.index == (qs.map fun p => p.2.1.index).foldl min c.2.1.index) = some q := by
      cases hf : (c :: qs).find? fun p =>
          p.2.1.index == (qs.map fun p => p.2.1.index).foldl min c.2.1.index with
      | none =>
        exfalso
        have := List.find?_eq_none.mp hf p₀ hp₀
        rw [hp₀v] at this
        simp at this
      | some q => exact ⟨q, rfl⟩
    obtain ⟨q, hq⟩ := hfind
    obtain ⟨hqpred, l₁, l₂, heq, hall⟩ := find?_split _ _ _ hq
    have hqmin : q.2.1.index = (qs.map fun p => p.2.1.index).foldl min c.2.1.index :=
      eq_of_beq hqpred
    have hqmem : q ∈ c :: qs := List.mem_of_find?_eq_some hq
    refine ⟨q, hqmem, ?_, ?_, ?_⟩
    · unfold selectPending
      simp only []
      rw [hq]
    · intro p hp; rw [hqmin]; exact hmin_le p hp
    · intro p hp hpq
      rw [heq] at hp hsorted
      rcases List.mem_append.mp hp with hp | hp
      · exfalso
        have := hall p hp
        rw [hpq, hqmin] at this
        simp at this
      · rcases List.mem_cons.mp hp with hp | hp
        · subst hp; exact Nat.le_refl _
        · have := (List.pairwise_append.mp hsorted).2.1
          exact Nat.le_of_lt ((List.pairwise_cons.mp this).1 p hp)

theorem zip_map_fst_snd {α β : Type} (l : List (α × β)) :
    (l.map fun x => x.1).zip (l.map fun x => x.2) = l := by
  induction l with
  | nil => rfl
  | cons a t ih => simp [List.zip_cons_cons, ih]

theorem findNextMatchSync_scannerOfSlots (patterns : List String) (forgiving : Bool)
    (slots : List (Option JSRegExp × Bool)) (arg : StrArg) (sp : Nat) :
    findNextMatchSync (scannerOfSlots patterns forgiving slots) arg sp =
      scanLoopP forgiving (resolveStr arg) sp slots 0 [] := by
  unfold findNextMatchSync scannerOfSlots
  rw [zip_map_fst_snd]

theorem collectCandidates_index_ge (str : String) (sp : Nat) :
    ∀ (slots : List (Option JSRegExp × Bool)) (i : Nat),
      ∀ q ∈ collectCandidates str sp slots i, i ≤ q.1 := by
  intro slots
  induction slots with
  | nil => intro i q hq; cases hq
  | cons x rest ih =>
    intro i q hq
    obtain ⟨slot, anchor⟩ := x
    cases slot with
    | none =>
      exact Nat.le_of_succ_le (ih (i + 1) q (by simpa [collectCandidates] using hq))
    | some r =>
      cases htp : tryPattern r anchor str sp with
      | threw e li n =>
        simp only [collectCandidates, htp] at hq
        exact Nat.le_of_succ_le (ih (i + 1) q hq)
      | noMatch li n =>
        simp only [collectCandidates, htp] at hq
        exact Nat.le_of_succ_le (ih (i + 1) q hq)
      | matched m off li n =>
        simp only [collectCandidates, htp] at hq
        rcases List.mem_cons.mp hq with hq | hq
        · subst hq; exact Nat.le_refl _
        · exact Nat.le_of_succ_le (ih (i + 1) q hq)

theorem collectCandidates_pairwise (str : String) (sp : Nat) :
    ∀ (slots : List (Option JSRegExp × Bool)) (i : Nat),
      (collectCandidates str sp slots i).Pairwise fun a b => a.1 < b.1 := by
  intro slots
  induction slots with
  | nil => intro i; exact List.Pairwise.nil
  | cons x rest ih =>
    intro i
    obtain ⟨slot, anchor⟩ := x
    cases slot with
    | none => simpa [collectCandidates] using ih (i + 1)
    | some r =>
      cases htp : tryPattern r anchor str sp with
      | threw e li n => simp only [collectCandidates, htp]; exact ih (i + 1)
      | noMatch li n => simp only [collectCandidates, htp]; exact ih (i + 1)
      | matched m off li n =>
        simp only [collectCandidates, htp]
        exact List.Pairwise.cons
          (fun q hq => Nat.lt_of_succ_le (collectCandidates_index_ge str sp rest (i + 1) q hq))
          (ih (i + 1))

theorem scanLoopP_quiet_append (forgiving : Bool) (str : String) (sp : Nat) :
    ∀ (pre rest : List (Option JSRegExp × Bool)) (i : Nat)
      (pending : List (Nat × ExecArray × Nat)),
      (∀ x ∈ pre, noImmediateHit forgiving str sp x = true) →
      scanLoopP forgiving str sp (pre ++ rest) i pending =
        scanLoopP forgiving str sp rest (i + pre.length)
          (pending ++ collectCandidates str sp pre i) := by
  intro pre
  induction pre with
  | nil =>
    intro rest i pending _
    simp [collectCandidates]
  | cons x pre' ih =>
    intro rest i pending hq
    obtain ⟨slot, anchor⟩ := x
    have hx := hq (slot, anchor) (List.mem_cons_self _ _)
    have hrest : ∀ x ∈ pre', noImmediateHit forgiving str sp x = true :=
      fun x hx' => hq x (List.mem_cons_of_mem _ hx')
    have hlen : i + 1 + pre'.length = i + (pre'.length + 1) := by omega
    cases slot with
    | none =>
      simp only [List.cons_append, scanLoopP, collectCandidates, List.append_eq,
        List.length_cons]
      rw [ih rest (i + 1) pending hrest, hlen]
    | some r =>
      cases htp : tryPattern r anchor str sp with
      | threw e li n =>
        have hf : forgiving = true := by
          simpa [noImmediateHit, htp] using hx
        subst hf
        simp only [List.cons_append, scanLoopP, htp, collectCandidates, if_true,
          List.append_eq, List.length_cons]
        rw [ih rest (i + 1) pending hrest, hlen]
      | noMatch li n =>
        simp only [List.cons_append, scanLoopP, htp, collectCandidates, List.append_eq,
          List.length_cons]
        rw [ih rest (i + 1) pending hrest, hlen]
      | matched m off li n =>
        have hne : ¬ m.index = sp := by
          simpa [noImmediateHit, htp] using hx
        simp only [List.cons_append, scanLoopP, htp, collectCandidates, if_neg hne,
          List.append_eq, List.length_cons]
        rw [ih rest (i + 1) (pending ++ [(i, m, off)]) hrest, hlen]
        simp

theorem scanLoopP_quiet (forgiving : Bool) (str : String) (sp : Nat)
    (slots : List (Option JSRegExp × Bool)) (i : Nat)
    (pending : List (Nat × ExecArray × Nat))
    (hq : ∀ x ∈ slots, noImmediateHit forgiving str sp x = true) :
    scanLoopP forgiving str sp slots i pending =
      .ok (selectPending (pending ++ collectCandidates str sp slots i)) := by
  have := scanLoopP_quiet_append forgiving str sp slots [] i pending hq
  rw [List.append_nil] at this
  rw [this]
  rfl

theorem scanLoopP_ok_some (forgiving : Bool) (str : String) (sp : Nat) :
    ∀ (slots : List (Option JSRegExp × Bool)) (i : Nat)
      (pending : List (Nat × ExecArray × Nat)) (res : MatchResult),
      scanLoopP forgiving str sp slots i pending = .ok (some res) →
      ∃ j m off, res = toResult j m off := by
  intro slots
  induction slots with
  | nil =>
    intro i pending res h
    simp only [scanLoopP] at h
    cases h' : selectPending pending with
    | none => rw [h'] at h; cases h
    | some res' =>
      rw [h'] at h
      cases h
      obtain ⟨q, _, hq⟩ := selectPending_some h'
      exact ⟨q.1, q.2.1, q.2.2, hq⟩
  | cons x rest ih =>
    intro i pending res h
    obtain ⟨slot, anchor⟩ := x
    cases slot with
    | none => exact ih (i + 1) pending res (by simpa [scanLoopP] using h)
    | some r =>
      cases htp : tryPattern r anchor str sp with
      | threw e li n =>
        simp only [scanLoopP, htp] at h
        cases hf : forgiving with
        | true => subst hf; exact ih (i + 1) pending res (by simpa using h)
        | false => subst hf; simp at h
      | noMatch li n =>
        simp only [scanLoopP, htp] at h
        exact ih (i + 1) pending res h
      | matched m off li n =>
        simp only [scanLoopP, htp] at h
        by_cases hidx : m.index = sp
        · rw [if_pos hidx] at h
          cases h
          exact ⟨i, m, off, rfl⟩
        · rw [if_neg hidx] at h
          exact ih (i + 1) (pending ++ [(i, m, off)]) res h

theorem scanLoopP_replace_null (str : String) (sp : Nat)
    {r : JSRegExp} {anchor : Bool} {e : JSError} {li n : Nat}
    (htp : tryPattern r anchor str sp = .threw e li n) :
    ∀ (pre post : List (Option JSRegExp × Bool)) (i : Nat)
      (pending : List (Nat × ExecArray × Nat)),
      scanLoopP true str sp (pre ++ (some r, anchor) :: post) i pending =
        scanLoopP true str sp (pre ++ (none, anchor) :: post) i pending := by
  intro pre
  induction pre with
  | nil =>
    intro post i pending
    simp [scanLoopP, htp]
  | cons x pre' ih =>
    intro post i pending
    obtain ⟨slot, anchor'⟩ := x
    cases slot with
    | none =>
      simp only [List.cons_append, scanLoopP, List.append_eq]
      exact ih post (i + 1) pending
    | some r' =>
      cases htp' : tryPattern r' anchor' str sp with
      | threw e' li' n' =>
        simp only [List.cons_append, scanLoopP, htp', if_true, List.append_eq]
        exact ih post (i + 1) pending
      | noMatch li' n' =>
        simp only [List.cons_append, scanLoopP, htp', List.append_eq]
        exact ih post (i + 1) pending
      | matched m off li' n' =>
        simp only [List.cons_append, scanLoopP, htp', List.append_eq]
        by_cases hidx : m.index = sp
        · rw [if_pos hidx, if_pos hidx]
        · rw [if_neg hidx, if_neg hidx]
          exact ih post (i + 1) (pending ++ [(i, m, off)])

theorem scanLoopSt_fst (forgiving : Bool) (str : String) (sp : Nat) :
    ∀ (slotlis : List ((Option JSRegExp × Bool) × Nat)) (i : Nat)
      (pending : List (Nat × ExecArray × Nat)) (log : List Nat),
      (scanLoopSt forgiving str sp slotlis i pending log).map (fun t => t.1) =
        scanLoopP forgiving str sp (slotlis.map fun t => t.1) i pending := by
  intro slotlis
  induction slotlis with
  | nil => intro i pending log; rfl
  | cons x rest ih =>
    intro i pending log
    obtain ⟨⟨slot, anchor⟩, li0⟩ := x
    cases slot with
    | none =>
      simp only [scanLoopSt, List.map_cons, scanLoopP]
      cases hrec : scanLoopSt forgiving str sp rest (i + 1) pending log with
      | ok t =>
        obtain ⟨a, b, c⟩ := t
        have ihr := ih (i + 1) pending log
        rw [hrec] at ihr
        simpa using ihr
      | error e =>
        have ihr := ih (i + 1) pending log
        rw [hrec] at ihr
        simpa using ihr
    | some r =>
      cases htp : tryPattern r anchor str sp with
      | threw e li n =>
        simp only [scanLoopSt, List.map_cons, scanLoopP, htp]
        cases forgiving with
        | false => rfl
        | true =>
          simp only [if_true]
          cases hrec : scanLoopSt true str sp rest (i + 1) pending
              (log ++ List.replicate n i) with
          | ok t =>
            obtain ⟨a, b, c⟩ := t
            have ihr := ih (i + 1) pending (log ++ List.replicate n i)
            rw [hrec] at ihr
            simpa using ihr
          | error e' =>
            have ihr := ih (i + 1) pending (log ++ List.replicate n i)
            rw [hrec] at ihr
            simpa using ihr
      | noMatch li n =>
        simp only [scanLoopSt, List.map_cons, scanLoopP, htp]
        cases hrec : scanLoopSt forgiving str sp rest (i + 1) pending
            (log ++ List.replicate n i) with
        | ok t =>
          obtain ⟨a, b, c⟩ := t
          have ihr := ih (i + 1) pending (log ++ List.replicate n i)
          rw [hrec] at ihr
          simpa using ihr
        | error e =>
          have ihr := ih (i + 1) pending (log ++ List.replicate n i)
          rw [hrec] at ihr
          simpa using ihr
      | matched m off li n =>
        simp only [scanLoopSt, List.map_cons, scanLoopP, htp]
        by_cases hidx : m.index = sp
        · rw [if_pos hidx, if_pos hidx]
          rfl
        · rw [if_neg hidx, if_neg hidx]
          cases hrec : scanLoopSt forgiving str sp rest (i + 1)
              (pending ++ [(i, m, off)]) (log ++ List.replicate n i) with
          | ok t =>
            obtain ⟨a, b, c⟩ := t
            have ihr := ih (i + 1) (pending ++ [(i, m, off)]) (log ++ List.replicate n i)
            rw [hrec] at ihr
            simpa using ihr
          | error e =>
            have ihr := ih (i + 1) (pending ++ [(i, m, off)]) (log ++ List.replicate n i)
            rw [hrec] at ihr
            simpa using ihr

theorem mapGet_mapSet_self (c : Cache) (k : String) (v : CacheEntry) :
    mapGet (mapSet c k v) k = some v := by
  induction c with
  | nil => simp [mapGet, mapSet]
  | cons a rest ih =>
    obtain ⟨a, w⟩ := a
    by_cases h : a = k
    · subst h; simp [mapGet, mapSet]
    · simp only [mapSet, if_neg h, mapGet]
      exact ih

theorem mapGet_mapSet_ne (c : Cache) (k k' : String) (v : CacheEntry) (h : k' ≠ k) :
    mapGet (mapSet c k v) k' = mapGet c k' := by
  induction c with
  | nil =>
    simp only [mapSet, mapGet]
    rw [if_neg (fun hk => h hk.symm)]
  | cons a rest ih =>
    obtain ⟨a, w⟩ := a
    by_cases hak : a = k
    · subst hak
      simp only [mapSet, if_pos rfl, mapGet]
      rw [if_neg (fun hk => h hk.symm), if_neg (fun hk => h hk.symm)]
    · simp only [mapSet, if_neg hak, mapGet]
      by_cases hak' : a = k'
      · rw [if_pos hak', if_pos hak']
      · rw [if_neg hak', if_neg hak']
        exact ih

theorem compileOne_at_present {forgiving : Bool} {rc : String → Except JSError JSRegExp}
    {cache : Cache} {p : String} {entry : CacheEntry} (h : mapGet cache p = some entry) :
    compileOne forgiving rc cache p =
      ((match entry with
        | .regex r => .ok (some r)
        | .error e => if forgiving then .ok none else .error e), cache, false) := by
  cases entry with
  | regex r => simp [compileOne, h]
  | error e => simp [compileOne, h]

theorem compileOne_preserves {forgiving : Bool} {rc : String → Except JSError JSRegExp}
    {cache : Cache} {q p : String} {entry : CacheEntry} (h : mapGet cache p = some entry) :
    mapGet (compileOne forgiving rc cache q).2.1 p = some entry ∧
    ((compileOne forgiving rc cache q).2.2 = true → q ≠ p) := by
  cases hq : mapGet cache q with
  | some entry' =>
    cases entry' with
    | regex r => simp [compileOne, hq, h]
    | error e =>
      refine ⟨?_, ?_⟩
      · simp [compileOne, hq, h]
      · simp [compileOne, hq]
  | none =>
    have hne : q ≠ p := by
      intro he
      rw [he, h] at hq
      cases hq
    cases hrc : rc q with
    | ok r =>
      refine ⟨?_, fun _ => hne⟩
      simp only [compileOne, hq, hrc]
      exact (mapGet_mapSet_ne cache q p _ fun he => hne he.symm).trans h
    | error e =>
      refine ⟨?_, fun _ => hne⟩
      simp only [compileOne, hq, hrc]
      exact (mapGet_mapSet_ne cache q p _ fun he => hne he.symm).trans h

theorem buildRegexps_preserves (forgiving : Bool) (rc : String → Except JSError JSRegExp) :
    ∀ (patterns : List String) (cache : Cache) (p : String) (entry : CacheEntry),
      mapGet cache p = some entry →
      p ∉ (buildRegexps forgiving rc patterns cache).2.2 ∧
      mapGet (buildRegexps forgiving rc patterns cache).2.1 p = some entry ∧
      (∀ r, entry = .regex r →
        ∀ slots, (buildRegexps forgiving rc patterns cache).1 = .ok slots →
        ∀ i, patterns.get? i = some p → slots.get? i = some (some r)) ∧
      (∀ e, entry = .error e → forgiving = true →
        ∀ slots, (buildRegexps forgiving rc patterns cache).1 = .ok slots →
        ∀ i, patterns.get? i = some p → slots.get? i = some none) := by
  intro patterns
  induction patterns with
  | nil =>
    intro cache p entry h
    refine ⟨by simp [buildRegexps], by simpa [buildRegexps] using h, ?_, ?_⟩
    · intro r _ slots hs i hi; cases hi
    · intro e _ _ slots hs i hi; cases hi
  | cons q ps ih =>
    intro cache p entry h
    by_cases hqp : q = p
    · subst hqp
      cases entry with
      | regex r =>
        have hco : compileOne forgiving rc cache q = (.ok (some r), cache, false) :=
          compileOne_at_present h
        rcases hbr : buildRegexps forgiving rc ps cache with ⟨res', c'', log⟩
        obtain ⟨ihlog, ihget, ihreg, iherr⟩ := ih cache q (.regex r) h
        rw [hbr] at ihlog ihget ihreg iherr
        simp only [buildRegexps, hco, hbr]
        refine ⟨by simpa using ihlog, by simpa using ihget, ?_, ?_⟩
        · intro r' hr' slots hs i hi
          cases hr'
          cases res' with
          | error e => cases hs
          | ok slots' =>
            simp only [Except.map] at hs
            cases hs
            cases i with
            | zero => rfl
            | succ i => exact ihreg r rfl slots' rfl i (by simpa using hi)
        · intro e he
          cases he
      | error e =>
        have hco : compileOne forgiving rc cache q =
            (if forgiving then .ok none else .error e, cache, false) :=
          compileOne_at_present h
        cases forgiving with
        | false =>
          rw [if_neg (by simp)] at hco
          simp only [buildRegexps, hco]
          refine ⟨by simp, by simpa using h, ?_, ?_⟩
          · intro r hr; cases hr
          · intro e' _ hf; cases hf
        | true =>
          rw [if_pos rfl] at hco
          rcases hbr : buildRegexps true rc ps cache with ⟨res', c'', log⟩
          obtain ⟨ihlog, ihget, ihreg, iherr⟩ := ih cache q (.error e) h
          rw [hbr] at ihlog ihget ihreg iherr
          simp only [buildRegexps, hco, hbr]
          refine ⟨by simpa using ihlog, by simpa using ihget, ?_, ?_⟩
          · intro r hr; cases hr
          · intro e' he' _ slots hs i hi
            cases res' with
            | error e'' => cases hs
            | ok slots' =>
              simp only [Except.map] at hs
              cases hs
              cases i with
              | zero => rfl
              | succ i => exact iherr e rfl rfl slots' rfl i (by simpa using hi)
    · rcases hco : compileOne forgiving rc cache q with ⟨resq, c', compiled⟩
      have hpres := @compileOne_preserves forgiving rc cache q p entry h
      rw [hco] at hpres
      obtain ⟨hget', _⟩ := hpres
      cases resq with
      | error e =>
        simp only [buildRegexps, hco]
        refine ⟨?_, by simpa using hget', ?_, ?_⟩
        · intro hmem
          cases compiled with
          | true =>
            simp at hmem
            exact hqp hmem.symm
          | false => simp at hmem
        · intro r hr slots hs i hi; cases hs
        · intro e' _ _ slots hs i hi; cases hs
      | ok slot =>
        rcases hbr : buildRegexps forgiving rc ps c' with ⟨res', c'', log⟩
        obtain ⟨ihlog, ihget, ihreg, iherr⟩ := ih c' p entry hget'
        rw [hbr] at ihlog ihget ihreg iherr
        simp only [buildRegexps, hco, hbr]
        refine ⟨?_, by simpa using ihget, ?_, ?_⟩
        · intro hmem
          rcases List.mem_append.mp hmem with hm | hm
          · cases compiled with
            | true =>
              simp at hm
              exact hqp hm.symm
            | false => simp at hm
          · exact ihlog hm
        · intro r hr slots hs i hi
          cases res' with
          | error e => cases hs
          | ok slots' =>
            simp only [Except.map] at hs
            cases hs
            cases i with
            | zero =>
              exfalso
              apply hqp
              simpa using hi
            | succ i => exact ihreg r hr slots' rfl i (by simpa using hi)
        · intro e he hf slots hs i hi
          cases res' with
          | error e' => cases hs
          | ok slots' =>
            simp only [Except.map] at hs
            cases hs
            cases i with
            | zero =>
              exfalso
              apply hqp
              simpa using hi
            | succ i => exact iherr e he hf slots' rfl i (by simpa using hi)

theorem patternFailsWith_mapSet_ne {rc : String → Except JSError JSRegExp}
    {cache : Cache} {p q : String} {v : CacheEntry} {e : JSError} (h : p ≠ q) :
    patternFailsWith rc (mapSet cache q v) p e ↔ patternFailsWith rc cache p e := by
  unfold patternFailsWith
  rw [mapGet_mapSet_ne cache q p v h]

theorem buildRegexps_fails (rc : String → Except JSError JSRegExp) :
    ∀ (patterns : List String) (cache : Cache),
      (∃ p ∈ patterns, patternFails rc cache p) →
      ∃ q e, q ∈ patterns ∧ patternFailsWith rc cache q e ∧
        (buildRegexps false rc patterns cache).1 = .error e := by
  intro patterns
  induction patterns with
  | nil =>
    intro cache h
    obtain ⟨p, hp, _⟩ := h
    cases hp
  | cons q ps ih =>
    intro cache hex
    by_cases hqf : patternFails rc cache q
    · obtain ⟨e, hfe⟩ := hqf
      refine ⟨q, e, List.mem_cons_self q ps, hfe, ?_⟩
      rcases hfe with hhit | ⟨hmiss, hrc⟩
      · simp [buildRegexps, compileOne, hhit]
      · simp [buildRegexps, compileOne, hmiss, hrc]
    · have hqsucc : (mapGet cache q = none ∧ ∃ r, rc q = .ok r) ∨
          (∃ r, mapGet cache q = some (.regex r)) := by
        cases hq : mapGet cache q with
        | none =>
          cases hrc : rc q with
          | ok r => exact Or.inl ⟨rfl, r, rfl⟩
          | error e => exact absurd ⟨e, Or.inr ⟨hq, hrc⟩⟩ hqf
        | some entry =>
          cases entry with
          | regex r => exact Or.inr ⟨r, rfl⟩
          | error e => exact absurd ⟨e, Or.inl hq⟩ hqf
      obtain ⟨p, hp, hpf⟩ := hex
      have hpps : p ∈ ps := by
        rcases List.mem_cons.mp hp with hpq | hpps
        · exact absurd (hpq ▸ hpf) hqf
        · exact hpps
      have hpq : p ≠ q := fun he => hqf (he ▸ hpf)
      rcases hqsucc with ⟨hmiss, r, hrc⟩ | ⟨r, hhit⟩
      · have hpf' : patternFails rc (mapSet cache q (.regex r)) p := by
          obtain ⟨e, hfe⟩ := hpf
          exact ⟨e, (patternFailsWith_mapSet_ne hpq).mpr hfe⟩
        obtain ⟨q', e', hq'mem, hq'fail, herr⟩ := ih (mapSet cache q (.regex r)) ⟨p, hpps, hpf'⟩
        have hq'q : q' ≠ q := by
          intro he
          subst he
          rcases hq'fail with hhit' | ⟨hmiss', _⟩
          · rw [mapGet_mapSet_self] at hhit'
            cases hhit'
          · rw [mapGet_mapSet_self] at hmiss'
            cases hmiss'
        refine ⟨q', e', List.mem_cons_of_mem q hq'mem,
          (patternFailsWith_mapSet_ne hq'q).mp hq'fail, ?_⟩
        rcases hbr : buildRegexps false rc ps (mapSet cache q (.regex r)) with ⟨res', c'', log⟩
        rw [hbr] at herr
        simp only [buildRegexps, compileOne, hmiss, hrc, hbr]
        cases res' with
        | error e'' =>
          have he : e'' = e' := by simpa using herr
          subst he
          rfl
        | ok slots => cases herr
      · obtain ⟨q', e', hq'mem, hq'fail, herr⟩ := ih cache ⟨p, hpps, hpf⟩
        refine ⟨q', e', List.mem_cons_of_mem q hq'mem, hq'fail, ?_⟩
        rcases hbr : buildRegexps false rc ps cache with ⟨res', c'', log⟩
        rw [hbr] at herr
        simp only [buildRegexps, compileOne, hhit, hbr]
        cases res' with
        | error e'' =>
          have he : e'' = e' := by simpa using herr
          subst he
          rfl
        | ok slots => cases herr

theorem patternFails_compileOne {rc : String → Except JSError JSRegExp}
    {cache : Cache} {x q : String} (forgiving : Bool) (h : patternFails rc cache x) :
    patternFails rc (compileOne forgiving rc cache q).2.1 x := by
  cases hq : mapGet cache q with
  | some entry =>
    cases entry with
    | regex r => simpa [compileOne, hq] using h
    | error e =>
      cases forgiving with
      | true => simpa [compileOne, hq] using h
      | false => simpa [compileOne, hq] using h
  | none =>
    cases hrc : rc q with
    | ok r =>
      have hxq : x ≠ q := by
        intro he
        subst he
        obtain ⟨e, hfe⟩ := h
        rcases hfe with hhit | ⟨hmiss, hrc'⟩
        · rw [hq] at hhit; cases hhit
        · rw [hrc] at hrc'; cases hrc'
      obtain ⟨e, hfe⟩ := h
      simp only [compileOne, hq, hrc]
      exact ⟨e, (patternFailsWith_mapSet_ne hxq).mpr hfe⟩
    | error e =>
      by_cases hxq : x = q
      · subst hxq
        simp only [compileOne, hq, hrc]
        cases forgiving with
        | true => exact ⟨e, Or.inl (mapGet_mapSet_self cache x (.error e))⟩
        | false => exact ⟨e, Or.inl (mapGet_mapSet_self cache x (.error e))⟩
      · obtain ⟨e', hfe⟩ := h
        simp only [compileOne, hq, hrc]
        cases forgiving with
        | true => exact ⟨e', (patternFailsWith_mapSet_ne hxq).mpr hfe⟩
        | false => exact ⟨e', (patternFailsWith_mapSet_ne hxq).mpr hfe⟩

theorem compileOne_forgiving_shape {rc : String → Except JSError JSRegExp}
    {cache : Cache} (q : String) :
    (∃ r, (compileOne true rc cache q).1 = .ok (some r)) ∨
      ((compileOne true rc cache q).1 = .ok none ∧ patternFails rc cache q) := by
  cases hq : mapGet cache q with
  | some entry =>
    cases entry with
    | regex r => exact Or.inl ⟨r, by simp [compileOne, hq]⟩
    | error e => exact Or.inr ⟨by simp [compileOne, hq], e, Or.inl hq⟩
  | none =>
    cases hrc : rc q with
    | ok r => exact Or.inl ⟨r, by simp [compileOne, hq, hrc]⟩
    | error e => exact Or.inr ⟨by simp [compileOne, hq, hrc], e, Or.inr ⟨hq, hrc⟩⟩

theorem compileOne_forgiving_fails {rc : String → Except JSError JSRegExp}
    {cache : Cache} {q : String} (h : patternFails rc cache q) :
    (compileOne true rc cache q).1 = .ok none := by
  obtain ⟨e, hfe⟩ := h
  rcases hfe with hhit | ⟨hmiss, hrc⟩
  · simp [compileOne, hhit]
  · simp [compileOne, hmiss, hrc]

theorem buildRegexps_forgiving (rc : String → Except JSError JSRegExp) :
    ∀ (patterns : List String) (cache : Cache),
      ∃ slots, (buildRegexps true rc patterns cache).1 = .ok slots ∧
        slots.length = patterns.length ∧
        ∀ i p, patterns.get? i = some p → patternFails rc cache p →
          slots.get? i = some none := by
  intro patterns
  induction patterns with
  | nil =>
    intro cache
    exact ⟨[], rfl, rfl, fun i p hi => by cases hi⟩
  | cons q ps ih =>
    intro cache
    rcases hco : compileOne true rc cache q with ⟨resq, c', compiled⟩
    obtain ⟨slots', hok', hlen', hnull'⟩ := ih c'
    have hresq : ∃ slotq, resq = .ok slotq ∧
        (patternFails rc cache q → slotq = none) := by
      rcases @compileOne_forgiving_shape rc cache q with ⟨r, hr⟩ | ⟨hn, hf⟩
      · rw [hco] at hr
        refine ⟨some r, hr, ?_⟩
        intro hfail
        have := compileOne_forgiving_fails hfail
        rw [hco] at this
        rw [hr] at this
        cases this
      · rw [hco] at hn
        exact ⟨none, hn, fun _ => rfl⟩
    obtain ⟨slotq, hre, hrnull⟩ := hresq
    subst hre
    rcases hbr : buildRegexps true rc ps c' with ⟨res', c'', log⟩
    rw [hbr] at hok'
    refine ⟨slotq :: slots', ?_, by simpa using hlen', ?_⟩
    · simp only [buildRegexps, hco, hbr]
      have hres : res' = Except.ok slots' := hok'
      rw [hres]
      rfl
    · intro i p hi hfail
      cases i with
      | zero =>
        have hpq : q = p := by simpa using hi
        subst hpq
        rw [hrnull hfail]
        rfl
      | succ i =>
        have hfail' : patternFails rc c' p := by
          have := @patternFails_compileOne rc cache p q true hfail
          rw [hco] at this
          exact this
        exact hnull' i p (by simpa using hi) hfail'

theorem scanLoopP_all_none (forgiving : Bool) (str : String) (sp : Nat) :
    ∀ (slots : List (Option JSRegExp × Bool)) (i : Nat)
      (pending : List (Nat × ExecArray × Nat)),
      (∀ x ∈ slots, x.1 = none) →
      scanLoopP forgiving str sp slots i pending = .ok (selectPending pending) := by
  intro slots
  induction slots with
  | nil => intro i pending _; rfl
  | cons x rest ih =>
    intro i pending hall
    obtain ⟨slot, anchor⟩ := x
    have hx : slot = none := hall (slot, anchor) (List.mem_cons_self _ _)
    subst hx
    simp only [scanLoopP]
    exact ih (i + 1) pending fun y hy => hall y (List.mem_cons_of_mem _ hy)

theorem map_fst_zip_of_length_le {α β : Type} :
    ∀ (l₁ : List α) (l₂ : List β), l₁.length ≤ l₂.length →
      (l₁.zip l₂).map (fun t => t.1) = l₁ := by
  intro l₁
  induction l₁ with
  | nil => intro l₂ _; rfl
  | cons a t ih =>
    intro l₂ h
    cases l₂ with
    | nil => simp at h
    | cons b t₂ =>
      simp only [List.zip_cons_cons, List.map_cons]
      rw [ih t₂ (by simpa using h)]

theorem get?_zip_fst {α β : Type} :
    ∀ (l₁ : List α) (l₂ : List β) (j : Nat) (a : α) (b : β),
      (l₁.zip l₂).get? j = some (a, b) → l₁.get? j = some a := by
  intro l₁
  induction l₁ with
  | nil => intro l₂ j a b h; cases h
  | cons x t ih =>
    intro l₂ j a b h
    cases l₂ with
    | nil => cases h
    | cons y t₂ =>
      cases j with
      | zero =>
        simp only [List.zip_cons_cons] at h
        have : x = a := by
          have := h
          simp at this
          exact this.1
        rw [this]
        rfl
      | succ j => exact ih t₂ j a b (by simpa [List.zip_cons_cons] using h)

theorem scanLoopP_forgiving_ok (str : String) (sp : Nat) :
    ∀ (slots : List (Option JSRegExp × Bool)) (i : Nat)
      (pending : List (Nat × ExecArray × Nat)),
      ∃ o, scanLoopP true str sp slots i pending = .ok o := by
  intro slots
  induction slots with
  | nil => intro i pending; exact ⟨selectPending pending, rfl⟩
  | cons x rest ih =>
    intro i pending
    obtain ⟨slot, anchor⟩ := x
    cases slot with
    | none => simpa [scanLoopP] using ih (i + 1) pending
    | some r =>
      cases htp : tryPattern r anchor str sp with
      | threw e li n => simpa [scanLoopP, htp] using ih (i + 1) pending
      | noMatch li n => simpa [scanLoopP, htp] using ih (i + 1) pending
      | matched m off li n =>
        by_cases hidx : m.index = sp
        · exact ⟨some (toResult i m off), by simp [scanLoopP, htp, if_pos hidx]⟩
        · simpa [scanLoopP, htp, if_neg hidx] using ih (i + 1) (pending ++ [(i, m, off)])

theorem scanLoopP_result_slot (forgiving : Bool) (str : String) (sp : Nat) :
    ∀ (slots : List (Option JSRegExp × Bool)) (i : Nat)
      (pending : List (Nat × ExecArray × Nat)) (res : MatchResult),
      scanLoopP forgiving str sp slots i pending = .ok (some res) →
      (∃ q ∈ pending, res = toResult q.1 q.2.1 q.2.2) ∨
      (∃ j r anchor m off, slots.get? j = some (some r, anchor) ∧
        res = toResult (i + j) m off) := by
  intro slots
  induction slots with
  | nil =>
    intro i pending res h
    simp only [scanLoopP] at h
    cases h' : selectPending pending with
    | none => rw [h'] at h; cases h
    | some res' =>
      rw [h'] at h
      cases h
      exact Or.inl (selectPending_some h')
  | cons x rest ih =>
    intro i pending res h
    obtain ⟨slot, anchor⟩ := x
    cases slot with
    | none =>
      rcases ih (i + 1) pending res (by simpa [scanLoopP] using h) with
        hp | ⟨j, r, a, m, off, hj, hres⟩
      · exact Or.inl hp
      · refine Or.inr ⟨j + 1, r, a, m, off, hj, ?_⟩
        rw [hres]
        have harith : i + 1 + j = i + (j + 1) := by omega
        rw [harith]
    | some r =>
      cases htp : tryPattern r anchor str sp with
      | threw e li n =>
        simp only [scanLoopP, htp] at h
        cases hf : forgiving with
        | false => subst hf; simp at h
        | true =>
          subst hf
          rcases ih (i + 1) pending res (by simpa using h) with
            hp | ⟨j, r', a', m', off', hj, hres⟩
          · exact Or.inl hp
          · refine Or.inr ⟨j + 1, r', a', m', off', hj, ?_⟩
            rw [hres]
            have harith : i + 1 + j = i + (j + 1) := by omega
            rw [harith]
      | noMatch li n =>
        simp only [scanLoopP, htp] at h
        rcases ih (i + 1) pending res h with hp | ⟨j, r', a', m', off', hj, hres⟩
        · exact Or.inl hp
        · refine Or.inr ⟨j + 1, r', a', m', off', hj, ?_⟩
          rw [hres]
          have harith : i + 1 + j = i + (j + 1) := by omega
          rw [harith]
      | matched m off li n =>
        simp only [scanLoopP, htp] at h
        by_cases hidx : m.index = sp
        · rw [if_pos hidx] at h
          cases h
          exact Or.inr ⟨0, r, anchor, m, off, rfl, by rw [Nat.add_zero]⟩
        · rw [if_neg hidx] at h
          rcases ih (i + 1) (pending ++ [(i, m, off)]) res h with
            hp | ⟨j, r', a', m', off', hj, hres⟩
          · obtain ⟨q, hq, hqres⟩ := hp
            rcases List.mem_append.mp hq with hq | hq
            · exact Or.inl ⟨q, hq, hqres⟩
            · have hq' : q = (i, m, off) := by simpa using hq
              subst hq'
              exact Or.inr ⟨0, r, anchor, m, off, rfl, by simpa using hqres⟩
          · refine Or.inr ⟨j + 1, r', a', m', off', hj, ?_⟩
            rw [hres]
            have harith : i + 1 + j = i + (j + 1) := by omega
            rw [harith]

/-! ## The claims -/

/-- C1, counterexample.  Pattern 0 (`/c/`) matches at absolute offset `4`
(raw index `4`); the anchor-flagged pattern 1 matches via the substring retry
at raw index `3`, absolute offset `3 + 2 = 5`.  Neither starts at
`startPosition = 2`, the minimal absolute start is `4` (pattern 0), yet the
scan returns pattern 1 (whose reported capture starts at `5`), because the
pending selection compares the raw indices `4` and `3` without the
anchor-simulation correction. -/
theorem c1_counterexample :
    tryPattern (literalRx 'c') false "xxabcd" 2 =
      .matched { index := 4, indices := [some (4, 5)] } 0 5 1 ∧
    tryPattern lookbehindABCD true "xxabcd" 2 =
      .matched { index := 3, indices := [some (3, 4)] } 2 4 2 ∧
    4 + 0 < 3 + 2 ∧
    findNextMatchSync scannerC1 (.raw "xxabcd") 2 =
      .ok (some { index := 1, captureIndices := [{ start := 5, length := 1, end_ := 6 }] }) :=
  ⟨by decide, by decide, by decide, by decide⟩

/-- C1, amended: when no pattern's try is an immediate hit (raw index equal
to `startPosition`) and no unforgiven throw occurs, and the pending candidate
list is non-empty, `findNextMatchSync` returns the candidate whose RAW
reported match index is minimal (for anchor-simulation retries this is the
slice-relative index, without the `startPosition` correction); among
candidates sharing that minimal raw index the lowest pattern index wins. -/
theorem c1_min_raw_index (sc : JavaScriptScanner) (arg : StrArg) (sp : Nat)
    (hq : ∀ x ∈ sc.regexps.zip sc.contiguousAnchorSimulation,
      noImmediateHit sc.forgiving (resolveStr arg) sp x = true)
    (hne : collectCandidates (resolveStr arg) sp
      (sc.regexps.zip sc.contiguousAnchorSimulation) 0 ≠ []) :
    ∃ q ∈ collectCandidates (resolveStr arg) sp
        (sc.regexps.zip sc.contiguousAnchorSimulation) 0,
      findNextMatchSync sc arg sp = .ok (some (toResult q.1 q.2.1 q.2.2)) ∧
      (∀ p ∈ collectCandidates (resolveStr arg) sp
          (sc.regexps.zip sc.contiguousAnchorSimulation) 0,
        q.2.1.index ≤ p.2.1.index) ∧
      (∀ p ∈ collectCandidates (resolveStr arg) sp
          (sc.regexps.zip sc.contiguousAnchorSimulation) 0,
        p.2.1.index = q.2.1.index → q.1 ≤ p.1) := by
  have hscan := scanLoopP_quiet sc.forgiving (resolveStr arg) sp
    (sc.regexps.zip sc.contiguousAnchorSimulation) 0 [] hq
  rw [List.nil_append] at hscan
  obtain ⟨q, hqmem, hsel, hmin, hfirst⟩ := selectPending_spec _ hne
    (collectCandidates_pairwise (resolveStr arg) sp
      (sc.regexps.zip sc.contiguousAnchorSimulation) 0)
  refine ⟨q, hqmem, ?_, hmin, hfirst⟩
  unfold findNextMatchSync
  rw [hscan, hsel]

/-- C1 witness for the amended theorem, on the counterexample scenario:
both hypotheses hold and the returned candidate is the raw-index minimum. -/
theorem c1_min_raw_index_witness :
    (∀ x ∈ scannerC1.regexps.zip scannerC1.contiguousAnchorSimulation,
      noImmediateHit scannerC1.forgiving (resolveStr (.raw "xxabcd")) 2 x = true) ∧
    collectCandidates (resolveStr (.raw "xxabcd")) 2
      (scannerC1.regexps.zip scannerC1.contiguousAnchorSimulation) 0 ≠ [] ∧
    ∃ q ∈ collectCandidates (resolveStr (.raw "xxabcd")) 2
        (scannerC1.regexps.zip scannerC1.contiguousAnchorSimulation) 0,
      findNextMatchSync scannerC1 (.raw "xxabcd") 2 = .ok (some (toResult q.1 q.2.1 q.2.2)) ∧
      (∀ p ∈ collectCandidates (resolveStr (.raw "xxabcd")) 2
          (scannerC1.regexps.zip scannerC1.contiguousAnchorSimulation) 0,
        q.2.1.index ≤ p.2.1.index) ∧
      (∀ p ∈ collectCandidates (resolveStr (.raw "xxabcd")) 2
          (scannerC1.regexps.zip scannerC1.contiguousAnchorSimulation) 0,
        p.2.1.index = q.2.1.index → q.1 ≤ p.1) :=
  ⟨by decide, by decide, c1_min_raw_index scannerC1 (.raw "xxabcd") 2 (by decide) (by decide)⟩

/-- C2, counterexample.  The anchor-flagged pattern 0 matches via the
substring retry with raw index `0`, hence absolute start `0 + 1 =
startPosition`.  The claim demands an immediate return of pattern 0; instead
the scan stores it as pending (its raw index `0` differs from
`startPosition = 1`), goes on to pattern 1, and returns pattern 1, whose raw
match index equals `startPosition`. -/
theorem c2_counterexample :
    tryPattern caretB true "ab" 1 = .matched { index := 0, indices := [some (0, 1)] } 1 1 2 ∧
    0 + 1 = 1 ∧
    findNextMatchSync scannerC2 (.raw "ab") 1 =
      .ok (some { index := 1, captureIndices := [{ start := 1, length := 1, end_ := 2 }] }) :=
  ⟨by decide, rfl, by decide⟩

/-- C2, amended: if all earlier slots pass quietly and pattern `pre.length`
has a match whose RAW reported index (slice-relative for a substring retry,
i.e. without the anchor correction) equals `startPosition`, the scan returns
that pattern's translated result immediately — for every continuation `post`
of the pattern list, so later patterns are never consulted. -/
theorem c2_raw_immediate_short_circuit (patterns : List String) (forgiving : Bool)
    (pre post : List (Option JSRegExp × Bool)) (r : JSRegExp) (anchor : Bool)
    (m : ExecArray) (off li n : Nat) (arg : StrArg) (sp : Nat)
    (hpre : ∀ x ∈ pre, noImmediateHit forgiving (resolveStr arg) sp x = true)
    (hm : tryPattern r anchor (resolveStr arg) sp = .matched m off li n)
    (hidx : m.index = sp) :
    findNextMatchSync (scannerOfSlots patterns forgiving (pre ++ (some r, anchor) :: post))
      arg sp = .ok (some (toResult pre.length m off)) := by
  rw [findNextMatchSync_scannerOfSlots,
    scanLoopP_quiet_append forgiving (resolveStr arg) sp pre _ 0 [] hpre]
  simp only [scanLoopP, hm, if_pos hidx, Nat.zero_add]

/-- C2 witness: pattern 1 (`/b/`) matches `"ab"` at raw index `1 =
startPosition` after pattern 0 (`/z/`) finds nothing; the result is returned
immediately although pattern 2 would throw if consulted. -/
theorem c2_raw_immediate_short_circuit_witness :
    (∀ x ∈ [(some (literalRx 'z'), false)],
      noImmediateHit false (resolveStr (.raw "ab")) 1 x = true) ∧
    tryPattern (literalRx 'b') false (resolveStr (.raw "ab")) 1 =
      .matched { index := 1, indices := [some (1, 2)] } 0 2 1 ∧
    ({ index := 1, indices := [some (1, 2)] } : ExecArray).index = 1 ∧
    findNextMatchSync (scannerOfSlots ["z", "b", "x"] false
        ([(some (literalRx 'z'), false)] ++
          (some (literalRx 'b'), false) :: [(some throwingRx, false)]))
      (.raw "ab") 1 = .ok (some (toResult 1 { index := 1, indices := [some (1, 2)] } 0)) :=
  ⟨by decide, by decide, rfl,
    c2_raw_immediate_short_circuit ["z", "b", "x"] false
      [(some (literalRx 'z'), false)] [(some throwingRx, false)]
      (literalRx 'b') false { index := 1, indices := [some (1, 2)] } 0 2 1
      (.raw "ab") 1 (by decide) (by decide) rfl⟩

/-- C3: for an anchor-flagged pattern whose direct search from
`startPosition` fails but whose substring retry matches, the try reports the
retry match with offset `startPosition`; a scanner over that pattern reports
`toResult` with `startPosition` added to start and end of every participating
group, which is exactly the result a direct match with the shifted offsets
(`shiftExec`) would produce. -/
theorem c3_anchor_offset_correction (patterns : List String) (forgiving : Bool)
    (r : JSRegExp) (str : String) (sp : Nat) (m : ExecArray)
    (hfail : r.exec str sp = .ok none)
    (hsim : r.exec (str.drop sp) 0 = .ok (some m)) :
    tryPattern r true str sp = .matched m sp m.fullEnd 2 ∧
    findNextMatchSync (scannerOfSlots patterns forgiving [(some r, true)]) (.raw str) sp =
      .ok (some (toResult 0 m sp)) ∧
    toResult 0 m sp = toResult 0 (shiftExec m sp) 0 := by
  have htp : tryPattern r true str sp = .matched m sp m.fullEnd 2 := by
    simp [tryPattern, hfail, hsim]
  refine ⟨htp, ?_, ?_⟩
  · rw [findNextMatchSync_scannerOfSlots]
    by_cases hidx : m.index = sp
    · simp [scanLoopP, htp, if_pos hidx, resolveStr]
    · simp only [resolveStr, scanLoopP, htp, if_neg hidx]
      simp [selectPending]
  · unfold toResult shiftExec
    refine congrArg (MatchResult.mk 0) ?_
    simp only [List.map_map]
    apply List.map_congr_left
    intro indice _
    cases indice with
    | none => rfl
    | some p =>
      obtain ⟨a, b⟩ := p
      simp [Nat.add_sub_add_right]

/-- C3 witness: the lookbehind-style matcher on `"xxabcd"` from position 2:
direct search fails, the substring retry matches at raw `3`, and the reported
spans carry absolute offsets `5..6`. -/
theorem c3_anchor_offset_correction_witness :
    lookbehindABCD.exec "xxabcd" 2 = .ok none ∧
    lookbehindABCD.exec ("xxabcd".drop 2) 0 =
      .ok (some { index := 3, indices := [some (3, 4)] }) ∧
    (tryPattern lookbehindABCD true "xxabcd" 2 =
      .matched { index := 3, indices := [some (3, 4)] } 2
        ({ index := 3, indices := [some (3, 4)] } : ExecArray).fullEnd 2 ∧
    findNextMatchSync (scannerOfSlots ["(^|\\G)d"] false [(some lookbehindABCD, true)])
        (.raw "xxabcd") 2 =
      .ok (some (toResult 0 { index := 3, indices := [some (3, 4)] } 2)) ∧
    toResult 0 { index := 3, indices := [some (3, 4)] } 2 =
      toResult 0 (shiftExec { index := 3, indices := [some (3, 4)] } 2) 0) :=
  ⟨by decide, by decide,
    c3_anchor_offset_correction ["(^|\\G)d"] false lookbehindABCD "xxabcd" 2
      { index := 3, indices := [some (3, 4)] } (by decide) (by decide)⟩

/-- C4, counterexample.  Scanning rewrites the shared matcher's `lastIndex`
field: before the call the matcher's `lastIndex` is `7`, after the call it is
`0` — per-search cursor state is stored on the shared compiled matcher
object, not confined to the call's frame. -/
theorem c4_counterexample :
    findNextMatchSyncSt scannerC4 (.raw "abc") 1 [7] = .ok (none, [0], [0]) ∧
    (0 : Nat) ≠ 7 :=
  ⟨by decide, by decide⟩

/-- C4, amended: the `lastIndex` cursor of each shared matcher is rewritten
by the call, but it is assigned before every `exec`, so the call's result is
independent of the matchers' prior `lastIndex` values (and no other matcher
state is read or written: the result coincides with the stateless embedding
of the same loop). -/
theorem c4_result_independent_of_lastIndex (sc : JavaScriptScanner) (arg : StrArg)
    (sp : Nat) (lastIndexes : List Nat)
    (h : (sc.regexps.zip sc.contiguousAnchorSimulation).length ≤ lastIndexes.length) :
    (findNextMatchSyncSt sc arg sp lastIndexes).map (fun t => t.1) =
      findNextMatchSync sc arg sp := by
  unfold findNextMatchSyncSt findNextMatchSync
  rw [scanLoopSt_fst]
  rw [map_fst_zip_of_length_le _ _ h]

/-- C4 witness: with prior `lastIndex = 7` the stateful call projects to the
stateless result. -/
theorem c4_result_independent_of_lastIndex_witness :
    (scannerC4.regexps.zip scannerC4.contiguousAnchorSimulation).length ≤ [7].length ∧
    (findNextMatchSyncSt scannerC4 (.raw "abc") 1 [7]).map (fun t => t.1) =
      findNextMatchSync scannerC4 (.raw "abc") 1 :=
  ⟨by decide, c4_result_independent_of_lastIndex scannerC4 (.raw "abc") 1 [7] (by decide)⟩

/-- C5: once the cache holds an entry for pattern `p`, any further scanner
construction over the same cache never hands `p` to the pattern compiler
(the compile log omits `p`), leaves the entry unchanged, and resolves every
occurrence of `p` in the pattern list to the identical cached matcher
(respectively, in forgiving mode, to the `null` slot for a recorded
failure). -/
theorem c5_cache_idempotent (forgiving : Bool) (rc : String → Except JSError JSRegExp)
    (patterns : List String) (cache : Cache) (p : String) (entry : CacheEntry)
    (h : mapGet cache p = some entry) :
    p ∉ (mkJavaScriptScanner patterns cache forgiving rc).2.2 ∧
    mapGet (mkJavaScriptScanner patterns cache forgiving rc).2.1 p = some entry ∧
    (∀ r, entry = .regex r →
      ∀ sc, (mkJavaScriptScanner patterns cache forgiving rc).1 = .ok sc →
      ∀ i, patterns.get? i = some p → sc.regexps.get? i = some (some r)) ∧
    (∀ e, entry = .error e → forgiving = true →
      ∀ sc, (mkJavaScriptScanner patterns cache forgiving rc).1 = .ok sc →
      ∀ i, patterns.get? i = some p → sc.regexps.get? i = some none) := by
  obtain ⟨hlog, hget, hreg, herr⟩ := buildRegexps_preserves forgiving rc patterns cache p entry h
  rcases hbr : buildRegexps forgiving rc patterns cache with ⟨res, c', log⟩
  rw [hbr] at hlog hget hreg herr
  unfold mkJavaScriptScanner
  rw [hbr]
  refine ⟨hlog, hget, ?_, ?_⟩
  · intro r hr sc hs i hi
    cases res with
    | error e => cases hs
    | ok slots =>
      simp only [Except.map] at hs
      cases hs
      exact hreg r hr slots rfl i hi
  · intro e he hf sc hs i hi
    cases res with
    | error e' => cases hs
    | ok slots =>
      simp only [Except.map] at hs
      cases hs
      exact herr e he hf slots rfl i hi

/-- C5 witness: a cache holding a compiled matcher for `"a"`; constructing a
scanner over `["b", "a"]` compiles only `"b"`, keeps the entry, and slot 1
is the identical cached matcher. -/
theorem c5_cache_idempotent_witness :
    mapGet [("a", CacheEntry.regex (fixedAt 1))] "a" = some (.regex (fixedAt 1)) ∧
    ("a" ∉ (mkJavaScriptScanner ["b", "a"] [("a", CacheEntry.regex (fixedAt 1))] false
      rcAccept).2.2 ∧
    mapGet (mkJavaScriptScanner ["b", "a"] [("a", CacheEntry.regex (fixedAt 1))] false
      rcAccept).2.1 "a" = some (.regex (fixedAt 1)) ∧
    (∀ r, CacheEntry.regex (fixedAt 1) = .regex r →
      ∀ sc, (mkJavaScriptScanner ["b", "a"] [("a", CacheEntry.regex (fixedAt 1))] false
        rcAccept).1 = .ok sc →
      ∀ i, ["b", "a"].get? i = some "a" → sc.regexps.get? i = some (some r)) ∧
    (∀ e, CacheEntry.regex (fixedAt 1) = .error e → false = true →
      ∀ sc, (mkJavaScriptScanner ["b", "a"] [("a", CacheEntry.regex (fixedAt 1))] false
        rcAccept).1 = .ok sc →
      ∀ i, ["b", "a"].get? i = some "a" → sc.regexps.get? i = some none)) :=
  ⟨rfl, c5_cache_idempotent false rcAccept ["b", "a"]
    [("a", CacheEntry.regex (fixedAt 1))] "a" (.regex (fixedAt 1)) rfl⟩

/-- C6: in non-forgiving mode, if some pattern of the list fails to compile
(recorded failure in the cache, or fresh rejection by the compiler), scanner
construction returns the originating compilation error of a failing pattern —
no scanner value is produced, so no scan can be attempted. -/
theorem c6_nonforgiving_construction_fails (rc : String → Except JSError JSRegExp)
    (patterns : List String) (cache : Cache) (p : String) (e : JSError)
    (hmem : p ∈ patterns) (hfail : patternFailsWith rc cache p e) :
    ∃ q e', q ∈ patterns ∧ patternFailsWith rc cache q e' ∧
      (mkJavaScriptScanner patterns cache false rc).1 = .error e' := by
  obtain ⟨q, e', hq, hf, herr⟩ :=
    buildRegexps_fails rc patterns cache ⟨p, hmem, e, hfail⟩
  refine ⟨q, e', hq, hf, ?_⟩
  rcases hbr : buildRegexps false rc patterns cache with ⟨res, c', log⟩
  rw [hbr] at herr
  unfold mkJavaScriptScanner
  rw [hbr]
  cases res with
  | error e'' =>
    have : e'' = e' := by simpa using herr
    subst this
    rfl
  | ok slots => cases herr

/-- C6 witness: a rejecting compiler over pattern list `["a"]` with an empty
cache: construction returns the compilation error. -/
theorem c6_nonforgiving_construction_fails_witness :
    "a" ∈ ["a"] ∧
    patternFailsWith rcReject [] "a" { msg := "unsupported" } ∧
    ∃ q e', q ∈ ["a"] ∧ patternFailsWith rcReject [] q e' ∧
      (mkJavaScriptScanner ["a"] [] false rcReject).1 = .error e' :=
  ⟨List.mem_cons_self "a" [], Or.inr ⟨rfl, rfl⟩,
    c6_nonforgiving_construction_fails rcReject ["a"] [] "a" { msg := "unsupported" }
      (List.mem_cons_self "a" []) (Or.inr ⟨rfl, rfl⟩)⟩

/-- C7: in forgiving mode, scanner construction always succeeds; a pattern
that fails to compile (recorded failure or fresh rejection) is stored as a
`null` slot; `findNextMatchSync` never throws; any returned match's pattern
index designates a slot holding a compiled matcher (a failed pattern is never
a match candidate); and in particular a scanner all of whose patterns failed
to compile is valid and returns "no match" for every buffer and position. -/
theorem c7_forgiving_null_slots (rc : String → Except JSError JSRegExp)
    (patterns : List String) (cache : Cache) :
    ∃ sc, (mkJavaScriptScanner patterns cache true rc).1 = .ok sc ∧
      (∀ i p, patterns.get? i = some p → patternFails rc cache p →
        sc.regexps.get? i = some none) ∧
      (∀ arg sp, ∃ o, findNextMatchSync sc arg sp = .ok o) ∧
      (∀ arg sp res, findNextMatchSync sc arg sp = .ok (some res) →
        ∃ r, sc.regexps.get? res.index = some (some r)) ∧
      ((∀ p ∈ patterns, patternFails rc cache p) →
        ∀ arg sp, findNextMatchSync sc arg sp = .ok none) := by
  obtain ⟨slots, hok, hlen, hnull⟩ := buildRegexps_forgiving rc patterns cache
  rcases hbr : buildRegexps true rc patterns cache with ⟨res, c', log⟩
  rw [hbr] at hok
  have hres : res = .ok slots := hok
  subst hres
  refine ⟨⟨patterns, true, slots, patterns.map contiguousAnchorFlag⟩, ?_, ?_, ?_, ?_, ?_⟩
  · unfold mkJavaScriptScanner
    rw [hbr]
    rfl
  · intro i p hi hf
    exact hnull i p hi hf
  · intro arg sp
    exact scanLoopP_forgiving_ok (resolveStr arg) sp
      (slots.zip (patterns.map contiguousAnchorFlag)) 0 []
  · intro arg sp res h
    have h' : scanLoopP true (resolveStr arg) sp
        (slots.zip (patterns.map contiguousAnchorFlag)) 0 [] = .ok (some res) := h
    rcases scanLoopP_result_slot true (resolveStr arg) sp
        (slots.zip (patterns.map contiguousAnchorFlag)) 0 [] res h' with
      ⟨q, hq, _⟩ | ⟨j, r, a, m, off, hj, hres2⟩
    · cases hq
    · refine ⟨r, ?_⟩
      have hidx : res.index = j := by
        rw [hres2]
        simp [toResult]
      rw [hidx]
      exact get?_zip_fst slots (patterns.map contiguousAnchorFlag) j (some r) a hj
  · intro hall arg sp
    have hallnone : ∀ x ∈ slots, x = none := by
      intro x hx
      obtain ⟨i, hi⟩ := List.mem_iff_get?.mp hx
      have hilen : i < patterns.length := by
        rw [← hlen]
        exact List.get?_eq_some.mp hi |>.1
      obtain ⟨p, hp⟩ : ∃ p, patterns.get? i = some p := by
        cases hg : patterns.get? i with
        | none => rw [List.get?_eq_none] at hg; omega
        | some p => exact ⟨p, rfl⟩
      have := hnull i p hp (hall p (List.get?_mem hp))
      rw [hi] at this
      cases this
      rfl
    unfold findNextMatchSync
    rw [scanLoopP_all_none]
    · rfl
    · intro x hx
      obtain ⟨a, b⟩ := x
      exact hallnone a (List.mem_zip hx).1

/-- C7 witness: the mixed compiler (rejects `"a"`, compiles `"b"`) over
`["a", "b"]`: construction succeeds with slots `[null, /b/]`, the scan of
`"ab"` returns pattern 1 without throwing (the failed pattern is no
candidate), and the theorem's general conclusion holds at this instance. -/
theorem c7_forgiving_null_slots_witness :
    (mkJavaScriptScanner ["a", "b"] [] true rcMixed).1 =
      .ok ⟨["a", "b"], true, [none, some (literalRx 'b')], [false, false]⟩ ∧
    findNextMatchSync
        ⟨["a", "b"], true, [none, some (literalRx 'b')], [false, false]⟩
        (.raw "ab") 0 =
      .ok (some { index := 1, captureIndices := [{ start := 1, length := 1, end_ := 2 }] }) ∧
    ∃ sc, (mkJavaScriptScanner ["a", "b"] [] true rcMixed).1 = .ok sc ∧
      (∀ i p, ["a", "b"].get? i = some p → patternFails rcMixed [] p →
        sc.regexps.get? i = some none) ∧
      (∀ arg sp, ∃ o, findNextMatchSync sc arg sp = .ok o) ∧
      (∀ arg sp res, findNextMatchSync sc arg sp = .ok (some res) →
        ∃ r, sc.regexps.get? res.index = some (some r)) ∧
      ((∀ p ∈ ["a", "b"], patternFails rcMixed [] p) →
        ∀ arg sp, findNextMatchSync sc arg sp = .ok none) :=
  ⟨rfl, by decide, c7_forgiving_null_slots rcMixed ["a", "b"] []⟩

/-- C8: a matcher that throws during a scan.  Non-forgiving: if all earlier
slots pass quietly, the error propagates and aborts the whole call.
Forgiving: the call behaves exactly as if that slot were `null` — the pattern
is skipped for this call.  (The failure is not recorded; see the
counterexample for the re-attempt on subsequent calls.) -/
theorem c8_scan_error_policy (patterns : List String)
    (pre post : List (Option JSRegExp × Bool)) (r : JSRegExp) (anchor : Bool)
    (e : JSError) (li n : Nat) (arg : StrArg) (sp : Nat)
    (hthrew : tryPattern r anchor (resolveStr arg) sp = .threw e li n) :
    ((∀ x ∈ pre, noImmediateHit false (resolveStr arg) sp x = true) →
      findNextMatchSync (scannerOfSlots patterns false (pre ++ (some r, anchor) :: post))
        arg sp = .error e) ∧
    findNextMatchSync (scannerOfSlots patterns true (pre ++ (some r, anchor) :: post))
        arg sp =
      findNextMatchSync (scannerOfSlots patterns true (pre ++ (none, anchor) :: post))
        arg sp := by
  constructor
  · intro hpre
    rw [findNextMatchSync_scannerOfSlots,
      scanLoopP_quiet_append false (resolveStr arg) sp pre _ 0 [] hpre]
    simp [scanLoopP, hthrew]
  · rw [findNextMatchSync_scannerOfSlots, findNextMatchSync_scannerOfSlots]
    exact scanLoopP_replace_null (resolveStr arg) sp hthrew pre post 0 []

/-- C8 witness: the throwing matcher aborts the non-forgiving scan after the
quiet `/z/` slot, and under forgiving the scan equals the scan with that slot
nulled. -/
theorem c8_scan_error_policy_witness :
    tryPattern throwingRx false (resolveStr (.raw "ab")) 0 = .threw { msg := "bad" } 0 1 ∧
    ((∀ x ∈ [(some (literalRx 'z'), false)],
      noImmediateHit false (resolveStr (.raw "ab")) 0 x = true) →
      findNextMatchSync (scannerOfSlots ["z", "t", "b"] false
          ([(some (literalRx 'z'), false)] ++
            (some throwingRx, false) :: [(some (literalRx 'b'), false)]))
        (.raw "ab") 0 = .error { msg := "bad" }) ∧
    findNextMatchSync (scannerOfSlots ["z", "t", "b"] true
        ([(some (literalRx 'z'), false)] ++
          (some throwingRx, false) :: [(some (literalRx 'b'), false)]))
      (.raw "ab") 0 =
      findNextMatchSync (scannerOfSlots ["z", "t", "b"] true
          ([(some (literalRx 'z'), false)] ++
            (none, false) :: [(some (literalRx 'b'), false)]))
        (.raw "ab") 0 :=
  ⟨by decide,
    (c8_scan_error_policy ["z", "t", "b"] [(some (literalRx 'z'), false)]
      [(some (literalRx 'b'), false)] throwingRx false { msg := "bad" } 0 1
      (.raw "ab") 0 (by decide)).1,
    (c8_scan_error_policy ["z", "t", "b"] [(some (literalRx 'z'), false)]
      [(some (literalRx 'b'), false)] throwingRx false { msg := "bad" } 0 1
      (.raw "ab") 0 (by decide)).2⟩

/-- C8, counterexample to "recorded once, not re-attempted": the forgiving
scanner with a throwing matcher invokes that matcher's `exec` (exec log
`[0]`) in a first call, the scanner object is unchanged, and an identical
subsequent call invokes it again — the failure is not recorded and the
matcher is re-attempted. -/
theorem c8_counterexample :
    findNextMatchSyncSt scannerC8 (.raw "ab") 0 [5] = .ok (none, [0], [0]) ∧
    findNextMatchSyncSt scannerC8 (.raw "ab") 0 [0] = .ok (none, [0], [0]) ∧
    (0 : Nat) ∈ [0] :=
  ⟨by decide, by decide, List.mem_cons_self 0 []⟩

/-- C9: every successful scan result is a `toResult` translation: a capture
group that did not participate is reported as the sentinel
`{start := MAX, end := MAX, length := 0}` with `MAX = 4294967295`, and a
participating group `[a, b]` is reported as
`{start := a + offset, length := b - a, end := b + offset}`, whose `length`
equals `end - start`. -/
theorem c9_capture_sentinel (sc : JavaScriptScanner) (arg : StrArg) (sp : Nat)
    (res : MatchResult) (h : findNextMatchSync sc arg sp = .ok (some res)) :
    ∃ j m off, res = toResult j m off ∧
      res.captureIndices.length = m.indices.length ∧
      (∀ k, m.indices.get? k = some none →
        res.captureIndices.get? k =
          some { start := MAX, length := 0, end_ := MAX }) ∧
      (∀ k a b, m.indices.get? k = some (some (a, b)) →
        res.captureIndices.get? k =
          some { start := a + off, length := b - a, end_ := b + off } ∧
        (b + off) - (a + off) = b - a) := by
  obtain ⟨j, m, off, hres⟩ :=
    scanLoopP_ok_some sc.forgiving (resolveStr arg) sp
      (sc.regexps.zip sc.contiguousAnchorSimulation) 0 [] res h
  subst hres
  refine ⟨j, m, off, rfl, by simp [toResult], ?_, ?_⟩
  · intro k hk
    simp only [toResult, List.get?_map, hk]
    rfl
  · intro k a b hk
    constructor
    · simp only [toResult, List.get?_map, hk]
      rfl
    · exact Nat.add_sub_add_right b off a

/-- C9 witness: a matcher with a non-participating middle group: the scan
reports the sentinel for it and shifted spans for the others. -/
theorem c9_capture_sentinel_witness :
    findNextMatchSync
        { patterns := ["g"], forgiving := false,
          regexps := [some multiGroupRx], contiguousAnchorSimulation := [false] }
        (.raw "xxabc") 2 =
      .ok (some (toResult 0 { index := 2, indices := [some (2, 5), none, some (3, 4)] } 0)) ∧
    ∃ j m off,
      toResult 0 { index := 2, indices := [some (2, 5), none, some (3, 4)] } 0 =
        toResult j m off ∧
      (toResult 0 { index := 2, indices := [some (2, 5), none, some (3, 4)] }
        0).captureIndices.length = m.indices.length ∧
      (∀ k, m.indices.get? k = some none →
        (toResult 0 { index := 2, indices := [some (2, 5), none, some (3, 4)] }
          0).captureIndices.get? k =
          some { start := MAX, length := 0, end_ := MAX }) ∧
      (∀ k a b, m.indices.get? k = some (some (a, b)) →
        (toResult 0 { index := 2, indices := [some (2, 5), none, some (3, 4)] }
          0).captureIndices.get? k =
          some { start := a + off, length := b - a, end_ := b + off } ∧
        (b + off) - (a + off) = b - a) :=
  ⟨by decide,
    c9_capture_sentinel
      { patterns := ["g"], forgiving := false,
        regexps := [some multiGroupRx], contiguousAnchorSimulation := [false] }
      (.raw "xxabc") 2
      (toResult 0 { index := 2, indices := [some (2, 5), none, some (3, 4)] } 0)
      (by decide)⟩

/-- C10: passing a raw string and passing the engine's `createString` wrapper
of the same string to `findNextMatchSync` produce identical results: the
scanner reads only the wrapped `content`. -/
theorem c10_raw_wrapped_interchangeable (forgiving : Bool)
    (rc : String → Except JSError JSRegExp) (sc : JavaScriptScanner)
    (s : String) (sp : Nat) :
    findNextMatchSync sc (.raw s) sp =
      findNextMatchSync sc
        (.wrapped ((createJavaScriptRegexEngine forgiving rc).createString s)) sp := rfl

end Shiki
